import Mathlib

set_option linter.unusedVariables false
set_option linter.unnecessarySeqFocus false

namespace Chi

/-!
Shallow embedding of the chi router core (repository hmgle/chi).

The file models, from the source under `src/`:
* the runtime handler/middleware argument universe and the chain builder
  (`chain`, `mwrap`, `assertMiddleware` in src/mux.go),
* the Mux registration methods (`Use`, `handle`, `Mount` in src/mux.go)
  and the old-style dispatch `ServeHTTPC`,
* the throttling middleware (`ThrottleBacklog`, `throttler.ServeHTTPC`),
* the `Timeout` and `Recoverer` middlewares,
* the `render.JSON` body post-processing.

Go `panic` and runtime faults are modelled with `Except String`.
-/

/-- A runtime value passed in a `...interface{}` argument list, as discriminated
by the type switches in `chain`, `mwrap`, `assertMiddleware` and `Mux.Use`
(src/mux.go).  `H` is the type standing for `chi.Handler`; the three handler
shapes of `chain`'s switch each carry the handler they convert to. -/
inductive GoArg (H : Type) where
  /-- `func(chi.Handler) chi.Handler` -/
  | chiMw (f : H → H)
  /-- `func(http.Handler) http.Handler`: accepted by `Use`, rejected by
  `assertMiddleware`/`mwrap`; its payload is never used, so it is opaque. -/
  | httpMw (id : Nat)
  /-- a value already implementing `chi.Handler` -/
  | handler (h : H)
  /-- `func(context.Context, *fasthttp.RequestCtx)` (wrapped by `HandlerFunc`) -/
  | ctxFn (h : H)
  /-- `func(*fasthttp.RequestCtx)` (wrapped by a closure) -/
  | fctxFn (h : H)
  /-- any other runtime type -/
  | badArg (id : Nat)

/-- Whether the value matches the `func(Handler) Handler` case. -/
def GoArg.isChiMw {H : Type} : GoArg H → Bool
  | .chiMw _ => true
  | _ => false

/-- src/mux.go `assertMiddleware`: only `func(Handler) Handler` is accepted,
anything else panics. -/
def assertMiddleware {H : Type} (mw : GoArg H) : Except String Unit :=
  match mw with
  | .chiMw _ => .ok ()
  | _ => .error "chi: unsupported middleware signature"

/-- The `for _, mw := range mws { assertMiddleware(mw) }` loop of `chain`. -/
def assertAll {H : Type} : List (GoArg H) → Except String Unit
  | [] => .ok ()
  | mw :: rest =>
    match assertMiddleware mw with
    | .error e => .error e
    | .ok _ => assertAll rest

/-- The handler type switch of `chain` (src/mux.go): a `chi.Handler`, a
`func(context.Context, *fasthttp.RequestCtx)` or a `func(*fasthttp.RequestCtx)`
is converted to a `chi.Handler`; anything else panics. -/
def toContextHandler {H : Type} : GoArg H → Except String H
  | .handler h => .ok h
  | .ctxFn h => .ok h
  | .fctxFn h => .ok h
  | _ => .error "chi: unsupported handler signature"

/-- src/mux.go `mwrap`: only `func(Handler) Handler` is accepted. -/
def mwrap {H : Type} : GoArg H → Except String (H → H)
  | .chiMw f => .ok f
  | _ => .error "chi: unsupported handler signature"

/-- The wrapping loop of `chain`: `h := mwrap(mws[len(mws)-1])(cxh)` then
`for i := len(mws)-2; i >= 0; i-- { h = mwrap(mws[i])(h) }`.  The innermost
(last) middleware is wrapped first, so the recursion wraps the tail first. -/
def wrapChain {H : Type} : List (GoArg H) → H → Except String H
  | [], cxh => .ok cxh
  | mw :: rest, cxh => do
    let inner ← wrapChain rest cxh
    let f ← mwrap mw
    pure (f inner)

/-- src/mux.go `chain(middlewares, handlers...)`: all but the last variadic
argument join the middleware stack, the last is the terminal handler.  An empty
`handlers` slice faults at `handlers[:len(handlers)-1]`. -/
def chain {H : Type} (middlewares handlers : List (GoArg H)) : Except String H :=
  match handlers.getLast? with
  | none => .error "runtime error: slice bounds out of range"
  | some hlast =>
    let mws := middlewares ++ handlers.dropLast
    match assertAll mws with
    | .error e => .error e
    | .ok _ =>
      match toContextHandler hlast with
      | .error e => .error e
      | .ok cxh => wrapChain mws cxh

/-! ### The Mux registration model -/

/-- The nine native methods with their `methodTyp` bits
(`mCONNECT = 1, mDELETE = 2, ..., mTRACE = 256`, src/mux.go). -/
def methodMap : List (String × Nat) :=
  [("CONNECT", 1), ("DELETE", 2), ("GET", 4), ("HEAD", 8), ("OPTIONS", 16),
   ("PATCH", 32), ("POST", 64), ("PUT", 128), ("TRACE", 256)]

/-- The `methodTyp` bits of the nine native methods. -/
def methodBits : List Nat := methodMap.map (·.2)

/-- `mALL = mCONNECT | ... | mTRACE | mIDK` (src/mux.go). -/
def mALL : Nat := 1023

/-- Modelled from the spec: the path trie (`tree.Insert`) is not under `src/`;
per §4.A "Registration of the same pattern twice silently replaces the prior
handler", we record the per-method pattern → handler associations, replacing on
re-registration of the same method bit and pattern. -/
def insertRoute {H : Type} : List (Nat × String × H) → Nat → String → H →
    List (Nat × String × H)
  | [], m, pat, h => [(m, pat, h)]
  | (m', p', g) :: rest, m, pat, h =>
    if m' = m ∧ p' = pat then (m, pat, h) :: rest
    else (m', p', g) :: insertRoute rest m pat h

/-- Handler stored in tree `m` at pattern `pat`. -/
def lookupRoute {H : Type} : List (Nat × String × H) → Nat → String → Option H
  | [], _, _ => none
  | (m', p', g) :: rest, m, pat =>
    if m' = m ∧ p' = pat then some g else lookupRoute rest m pat

/-- The `Mux` of src/mux.go: a middleware stack of runtime values and the
per-method route tries (flattened to one association list). -/
structure MuxM (H : Type) where
  middlewares : List (GoArg H) := []
  routes : List (Nat × String × H) := []

/-- One iteration of `Mux.Use`'s loop: the type switch accepts
`func(http.Handler) http.Handler` and `func(Handler) Handler` (doing nothing
with either) and panics on anything else; the value is then appended. -/
def useOne {H : Type} (mx : MuxM H) (mw : GoArg H) : Except String (MuxM H) :=
  match mw with
  | .chiMw f => .ok { mx with middlewares := mx.middlewares ++ [.chiMw f] }
  | .httpMw n => .ok { mx with middlewares := mx.middlewares ++ [.httpMw n] }
  | _ => .error "chi: unsupported middleware signature"

/-- `Mux.Use(mws ...interface{})` (src/mux.go). -/
def Use {H : Type} (mx : MuxM H) : List (GoArg H) → Except String (MuxM H)
  | [] => .ok mx
  | mw :: rest => do
    let mx' ← useOne mx mw
    Use mx' rest

/-- The registration loop of `Mux.handle`: for each native bit, if
`method & mt > 0`, insert into that method's trie. -/
def insertBits {H : Type} (method : Nat) (pattern : String) (h : H)
    (bits : List Nat) (rs : List (Nat × String × H)) : List (Nat × String × H) :=
  bits.foldl
    (fun rs mt => if method &&& mt > 0 then insertRoute rs mt pattern h else rs)
    rs

/-- `insertBits` over the nine native method bits. -/
def insertAllBits {H : Type} (method : Nat) (pattern : String) (h : H)
    (rs : List (Nat × String × H)) : List (Nat × String × H) :=
  insertBits method pattern h methodBits rs

/-- `Mux.handle(method, pattern, handlers...)` (src/mux.go): build the chained
handler first, panic unless the pattern begins with `/` (`pattern[0]` faults on
an empty pattern), then insert into every method trie whose bit is set. -/
def handle {H : Type} (mx : MuxM H) (method : Nat) (pattern : String)
    (handlers : List (GoArg H)) : Except String (MuxM H) := do
  let h ← chain mx.middlewares handlers
  match pattern.data with
  | [] => .error "runtime error: index out of range"
  | c :: _ =>
    if c = '/' then
      pure { mx with routes := insertAllBits method pattern h mx.routes }
    else .error "pattern must begin with a /"

/-! ### Handler values and Mount -/

/-- Concrete handler values for the Mount and dispatch claims.  `goNotFound`
is the stdlib `http.NotFound` handler that `Mount` registers at `path+"/"`;
`mountWrap h` is the `subRouter` closure `Mount` builds around the chained
handler `h` (the closure that moves the `*` param into the sub-router path
context key before delegating). -/
inductive HV where
  | user (id : Nat)
  | goNotFound
  | mountWrap (inner : HV)
  deriving DecidableEq, Repr

/-- `Mux.Mount(path, handlers...)` (src/mux.go): chain the handlers with an
empty middleware stack, build the `subRouter` wrapper, rewrite a `"/"` mount
point to `""`, then register: the wrapper at `path` (via `Handle`, i.e.
`handle` with `mALL`), the stdlib `http.NotFound` at `path+"/"` (only when
`path` is nonempty), and the wrapper again at `path+"/*"`. -/
def Mount (mx : MuxM HV) (path : String) (handlers : List (GoArg HV)) :
    Except String (MuxM HV) := do
  let h ← chain [] handlers
  let sub := HV.mountWrap h
  let p := if path = "/" then "" else path
  let mx1 ← handle mx mALL p [GoArg.handler sub]
  let mx2 ←
    if p ≠ "" then handle mx1 mALL (p ++ "/") [GoArg.handler HV.goNotFound]
    else pure mx1
  handle mx2 mALL (p ++ "/*") [GoArg.handler sub]

/-! ### A spec-modelled trie lookup -/

/-- Split a character list on `/` (the behaviour of Go `strings.Split` on
`"/"`). -/
def splitSegs : List Char → List (List Char)
  | [] => [[]]
  | c :: cs =>
    if c = '/' then [] :: splitSegs cs
    else
      match splitSegs cs with
      | [] => [[c]]
      | s :: rest => (c :: s) :: rest

/-- Modelled from the spec: the path-pattern segment kinds of §3 (the trie
implementation `tree.go` is not under `src/`): a segment is static, a
`:name` parameter, or a `*`/`*name` catch-all. -/
inductive Seg where
  | staticSeg (s : List Char)
  | paramSeg (pname : List Char)
  | catchAllSeg (pname : List Char)
  deriving DecidableEq, Repr

/-- Modelled from the spec: classify one pattern segment (§3). -/
def parseSeg (cs : List Char) : Seg :=
  match cs with
  | ':' :: r => .paramSeg r
  | '*' :: r => .catchAllSeg r
  | _ => .staticSeg cs

/-- Modelled from the spec: a pattern begins with `/`, so splitting yields a
leading empty segment which is dropped (§3). -/
def parsePattern (p : String) : List Seg :=
  ((splitSegs p.data).drop 1).map parseSeg

/-- Modelled from the spec: the path is split the same way as patterns. -/
def splitPath (p : String) : List (List Char) :=
  (splitSegs p.data).drop 1

/-- Modelled from the spec: whether a pattern's segments match a path's
segments (§3): static segments match literally, a parameter matches any
single nonempty segment, a trailing catch-all matches the remainder
(including an empty remainder, cf. "`/*` catches every path under the mount
point including `/`"). -/
def matchSegs : List Seg → List (List Char) → Bool
  | [], [] => true
  | [.catchAllSeg _], _ => true
  | .staticSeg s :: ps, x :: xs => x = s && matchSegs ps xs
  | .paramSeg _ :: ps, x :: xs => !x.isEmpty && matchSegs ps xs
  | _, _ => false

/-- Modelled from the spec: precedence rank static < param < catch-all
(§4.A). -/
def segRank : Seg → Nat
  | .staticSeg _ => 0
  | .paramSeg _ => 1
  | .catchAllSeg _ => 2

/-- The rank word of a pattern. -/
def rankWord (segs : List Seg) : List Nat := segs.map segRank

/-- Lexicographic comparison of rank words; a proper prefix is smaller (an
exact match at a node beats descending into a child). -/
def lexLt : List Nat → List Nat → Bool
  | _, [] => false
  | [], _ :: _ => true
  | a :: as, b :: bs => a < b || (a == b && lexLt as bs)

/-- Modelled from the spec: `tree.Find` (not under `src/`): among the
patterns registered for the method that match the path, the trie's
static > param > catch-all descent returns the pattern whose rank word is
lexicographically least (§4.A tie-break is strict and independent of
registration order). -/
def findSpec {H : Type} (rs : List (Nat × String × H)) (m : Nat)
    (path : String) : Option H :=
  (rs.foldl
    (fun best entry =>
      if entry.1 = m ∧ matchSegs (parsePattern entry.2.1) (splitPath path) then
        match best with
        | none => some entry.2
        | some b =>
          if lexLt (rankWord (parsePattern entry.2.1))
              (rankWord (parsePattern b.1)) then some entry.2
          else some b
      else best)
    none).map (·.2)

/-! ### The response context and old-mux dispatch -/

/-- The response-building state of a request context (`fasthttp.RequestCtx`
response side, or `http.ResponseWriter`): status code, accumulated body,
headers and content type.  `Write` appends to the body. -/
structure FCtx where
  status : Nat := 200
  body : String := ""
  headers : List (String × String) := []
  contentType : String := ""
  deriving DecidableEq, Repr

/-- `fasthttp.RequestCtx.Error(msg, code)`: resets the body to `msg`, sets the
status code and a plain-text content type. -/
def fctxError (fctx : FCtx) (msg : String) (code : Nat) : FCtx :=
  { fctx with
    status := code
    body := msg
    contentType := "text/plain; charset=utf-8" }

/-- `methodNotAllowedHandler` (src/mux.go): adds an `Allow` header joining the
names of the nine supported methods (Go iterates the map in unspecified
order; the model uses declaration order), sets status 405 and writes
"Method Not Allowed". -/
def methodNotAllowedHandler (fctx : FCtx) : FCtx :=
  { fctx with
    headers :=
      fctx.headers ++ [("Allow", String.intercalate "," (methodMap.map (·.1)))],
    status := 405,
    body := fctx.body ++ "Method Not Allowed" }

/-- `Mux.ServeHTTPC` (src/mux.go): dispatch looks up
`mx.routes[methodMap[r.Method]]`; for a request method outside the nine
native ones `methodMap` yields the zero `methodTyp`, the routes map (whose
keys are exactly the nine native bits, cf. `handle`'s initialisation loop)
yields a nil `*tree`, and the `routes.Find` call dereferences the nil trie —
a runtime fault.  Otherwise `Find` (spec-modelled above) either yields nil,
in which case 404 with body "~~ not found ~~" is written, or the stored
handler, which is invoked via `run`. -/
def serveHTTPC (run : HV → FCtx → FCtx) (mx : MuxM HV) (method path : String)
    (fctx : FCtx) : Except String FCtx :=
  match List.lookup method methodMap with
  | none =>
    .error "runtime error: invalid memory address or nil pointer dereference"
  | some mbit =>
    match findSpec mx.routes mbit path with
    | none => .ok { fctx with status := 404, body := fctx.body ++ "~~ not found ~~" }
    | some h => .ok (run h fctx)

/-! ### The throttling middleware (src/unnamed/part_001) -/

/-- The 503 reason strings of the throttle middleware. -/
def errCapacityExceeded : String := "Server capacity exceeded."

/-- Reason string for a backlog timeout. -/
def errTimedOut : String :=
  "Timed out while waiting for a pending request to complete."

/-- Reason string for context cancellation. -/
def errContextCanceled : String := "Context was canceled."

/-- The construction-time checks of `ThrottleBacklog`: `limit < 1` and
`backlogLimit < 0` are fatal. -/
def throttleChecks (limit backlogLimit : Int) : Except String Unit :=
  if limit < 1 then .error "middleware.Throttle expects limit > 0"
  else if backlogLimit < 0 then
    .error "middleware.Throttle expects backlogLimit to be positive"
  else .ok ()

/-- The filling loop of `ThrottleBacklog`: `limit + backlogLimit` iterations;
iteration `i` sends a token on `tokens` when `i < limit` and always sends one
on `backlogTokens`.  Returns the channel occupancies (tokens, backlogTokens)
after the loop. -/
def fillTokens (limit : Nat) : Nat → Nat × Nat
  | 0 => (0, 0)
  | n + 1 =>
    let p := fillTokens limit n
    (if n < limit then p.1 + 1 else p.1, p.2 + 1)

/-- Which of the three inner select cases (`timer.C`, `ctx.Done()`,
`t.tokens`) becomes ready first for a given request. -/
inductive InnerEvent where
  | timerFires
  | ctxCanceled
  | tokenAcquired
  deriving DecidableEq, Repr

/-- The scheduling environment of one `throttler.ServeHTTPC` call: which
channels are ready at the outer select, the choice Go's select makes when
both non-default cases are ready, and which inner event occurs first. -/
structure ThrottleEnv where
  ctxDoneAtEntry : Bool
  backlogFree : Bool
  pickCtxDone : Bool
  inner : InnerEvent
  deriving DecidableEq, Repr

/-- Outcome of the outer select of `throttler.ServeHTTPC`: the `ctx.Done()`
case, the `<-t.backlogTokens` case, or the `default` case.  The `default`
case is taken only when no other case is ready. -/
inductive OuterCase where
  | canceled
  | backlog
  | capacity
  deriving DecidableEq, Repr

/-- Go select semantics for the outer select: if both `ctx.Done()` and a
backlog token are ready the runtime picks either one; if exactly one is
ready it is taken; `default` fires only when neither is ready. -/
def outerCase (e : ThrottleEnv) : OuterCase :=
  if e.ctxDoneAtEntry && e.backlogFree then
    if e.pickCtxDone then .canceled else .backlog
  else if e.ctxDoneAtEntry then .canceled
  else if e.backlogFree then .backlog
  else .capacity

/-- Token-channel events of one request, in program order. -/
inductive TokEvent where
  | acqBacklog
  | acqActive
  | runHandler
  | relActive
  | relBacklog
  deriving DecidableEq, Repr

/-- Result of one `throttler.ServeHTTPC` call: the response state, whether
the wrapped handler ran, and the token events in order. -/
structure ThrottleResult where
  fctx : FCtx
  handlerRan : Bool
  events : List TokEvent
  deriving DecidableEq, Repr

/-- `throttler.ServeHTTPC` (src/unnamed/part_001 73-104).  Outer select:
`ctx.Done()` gives 503 "canceled"; `default` (no backlog token free, ctx not
ready) gives 503 "capacity exceeded"; acquiring a backlog token enters the
inner select, whose timer case gives 503 "timed out", ctx case 503
"canceled" (both release the backlog token via the deferred send), and whose
token case runs the wrapped handler and then releases the active token (inner
defer) before the backlog token (outer defer) — deferred functions run in
reverse registration order. -/
def throttleServe (e : ThrottleEnv) (h : FCtx → FCtx) (fctx : FCtx) :
    ThrottleResult :=
  match outerCase e with
  | .canceled => ⟨fctxError fctx errContextCanceled 503, false, []⟩
  | .capacity => ⟨fctxError fctx errCapacityExceeded 503, false, []⟩
  | .backlog =>
    match e.inner with
    | .timerFires =>
      ⟨fctxError fctx errTimedOut 503, false, [.acqBacklog, .relBacklog]⟩
    | .ctxCanceled =>
      ⟨fctxError fctx errContextCanceled 503, false, [.acqBacklog, .relBacklog]⟩
    | .tokenAcquired =>
      ⟨h fctx, true,
       [.acqBacklog, .acqActive, .runHandler, .relActive, .relBacklog]⟩

/-- Per-phase occurrence counter. -/
def countPh {α : Type} [DecidableEq α] (ph : α) : List α → Nat
  | [] => 0
  | q :: l => (if q = ph then 1 else 0) + countPh ph l

/-- Phase of one request inside `throttler.ServeHTTPC`. -/
inductive Phase where
  /-- before the outer select -/
  | started
  /-- holding a backlog token, inside the inner select -/
  | queued
  /-- holding backlog and active tokens, inside the wrapped handler -/
  | running
  /-- handler returned; the active token was already released by the inner
  (later-registered, hence first-run) deferred send, the backlog token is
  still held -/
  | releasedActive
  /-- done; every acquired token has been returned -/
  | finished
  deriving DecidableEq, Repr

/-- Global state of one throttler: free tokens on both channels and the
phases of the live requests. -/
structure Sys where
  freeTokens : Nat
  freeBacklog : Nat
  procs : List Phase
  deriving DecidableEq, Repr

/-- State after `ThrottleBacklog(limit, backlogLimit, _)` fills the
channels, before any request arrives. -/
def initSys (limit backlogLimit : Nat) : Sys :=
  ⟨(fillTokens limit (limit + backlogLimit)).1,
   (fillTokens limit (limit + backlogLimit)).2, []⟩

/-- Interleaved small-step semantics of concurrent `throttler.ServeHTTPC`
calls against the shared token channels.  Each constructor is one atomic
channel operation (or a no-token exit) of one request; `rejectCapacity`
requires `freeBacklog = 0` because Go's select takes `default` only when no
other case is ready. -/
inductive Step : Sys → Sys → Prop where
  | spawn (ft fb : Nat) (l : List Phase) :
      Step ⟨ft, fb, l⟩ ⟨ft, fb, l ++ [.started]⟩
  | rejectCanceled (ft fb : Nat) (l1 l2 : List Phase) :
      Step ⟨ft, fb, l1 ++ .started :: l2⟩ ⟨ft, fb, l1 ++ .finished :: l2⟩
  | rejectCapacity (ft : Nat) (l1 l2 : List Phase) :
      Step ⟨ft, 0, l1 ++ .started :: l2⟩ ⟨ft, 0, l1 ++ .finished :: l2⟩
  | acquireBacklog (ft fb : Nat) (l1 l2 : List Phase) :
      Step ⟨ft, fb + 1, l1 ++ .started :: l2⟩ ⟨ft, fb, l1 ++ .queued :: l2⟩
  | innerTimeout (ft fb : Nat) (l1 l2 : List Phase) :
      Step ⟨ft, fb, l1 ++ .queued :: l2⟩ ⟨ft, fb + 1, l1 ++ .finished :: l2⟩
  | innerCanceled (ft fb : Nat) (l1 l2 : List Phase) :
      Step ⟨ft, fb, l1 ++ .queued :: l2⟩ ⟨ft, fb + 1, l1 ++ .finished :: l2⟩
  | acquireActive (ft fb : Nat) (l1 l2 : List Phase) :
      Step ⟨ft + 1, fb, l1 ++ .queued :: l2⟩ ⟨ft, fb, l1 ++ .running :: l2⟩
  | releaseActive (ft fb : Nat) (l1 l2 : List Phase) :
      Step ⟨ft, fb, l1 ++ .running :: l2⟩ ⟨ft + 1, fb, l1 ++ .releasedActive :: l2⟩
  | releaseBacklog (ft fb : Nat) (l1 l2 : List Phase) :
      Step ⟨ft, fb, l1 ++ .releasedActive :: l2⟩ ⟨ft, fb + 1, l1 ++ .finished :: l2⟩

/-- Reachability from a given start state. -/
inductive Reach (s0 : Sys) : Sys → Prop where
  | refl : Reach s0 s0
  | step {s s' : Sys} : Reach s0 s → Step s s' → Reach s0 s'

/-- Requests currently executing inside the wrapped handler. -/
def inFlight (s : Sys) : Nat := countPh Phase.running s.procs

/-- Requests currently holding a backlog token. -/
def backlogHolders (s : Sys) : Nat :=
  countPh Phase.queued s.procs + countPh Phase.running s.procs +
    countPh Phase.releasedActive s.procs

/-- Token conservation: free tokens plus holders equal the channel
capacities. -/
def SysInv (limit backlogLimit : Nat) (s : Sys) : Prop :=
  s.freeTokens + inFlight s = limit ∧
  s.freeBacklog + backlogHolders s = limit + backlogLimit

/-- The mutable state every wrapper returned by one `ThrottleBacklog` factory
shares: in Go, `fn := func(h chi.Handler) chi.Handler { t.h = h; return &t }`
closes over the single `throttler` value `t`, so each application overwrites
`t.h` and returns the same pointer `&t`.  The token channels are also fields
of `t`, hence shared; only the handler field matters for dispatch identity. -/
structure ThrottlerCell where
  h : Option (FCtx → FCtx)

/-- One application of the factory: assign `t.h` and return the shared
pointer (modelled as the updated cell; Go returns `&t`, always the same
address). -/
def factoryApply (t : ThrottlerCell) (hh : FCtx → FCtx) : ThrottlerCell :=
  { t with h := some hh }

/-- Dispatch through any wrapper of the factory: reads the shared cell's
current handler field at request time. -/
def throttlerDispatch (t : ThrottlerCell) (e : ThrottleEnv) (fctx : FCtx) :
    Option ThrottleResult :=
  t.h.map (fun h => throttleServe e h fctx)

/-! ### The Recoverer middleware (src/middleware/recoverer.go) -/

/-- A handler world: the response state plus the process diagnostics sink
(stderr, where `debug.PrintStack` writes). -/
structure World where
  fctx : FCtx
  diag : List String := []
  deriving DecidableEq, Repr

/-- A Go handler that may terminate abnormally: it either returns the mutated
world, or panics, carrying the panic value together with the world as mutated
up to the fault (the request context is a pointer, so earlier writes
persist). -/
def GHandler : Type := World → Except (String × World) World

/-- The model's marker for the output of `debug.PrintStack()`. -/
def stackTraceLine (pv : String) : String := "goroutine stack trace: " ++ pv

/-- `Recoverer(next)` (src/middleware/recoverer.go): run `next` under a
deferred `recover()`; if a panic is recovered, print the stack to the
diagnostics sink and call `fctx.Error("Internal Server Error", 500)`; on a
normal return do nothing. -/
def Recoverer (next : GHandler) : GHandler := fun w =>
  match next w with
  | .ok w' => .ok w'
  | .error (pv, w') =>
    .ok ⟨fctxError w'.fctx "Internal Server Error" 500,
         w'.diag ++ [stackTraceLine pv]⟩

/-! ### The Timeout middleware (src/unnamed/part_002) -/

/-- The request context as far as the Timeout middleware observes it: an
optional absolute deadline. -/
structure GoCtx where
  deadline : Option Nat := none
  deriving DecidableEq, Repr

/-- `context.WithTimeout(ctx, d)` called at absolute time `now`: the child
carries the deadline `now + d` (the router dispatches with a background
context, so the parent carries no earlier deadline in this model). -/
def withTimeout (now d : Nat) : GoCtx := ⟨some (now + d)⟩

/-- The child context's error state at the time the deferred function runs,
before `cancel()`: still live, cancelled via the parent, or past its
deadline. -/
inductive CtxErr where
  | live
  | canceledErr
  | deadlineExceeded
  deriving DecidableEq, Repr

/-- `cancel()` on a `WithTimeout` child: a live context's error becomes
Canceled; an error already set (Canceled or DeadlineExceeded) is kept. -/
def cancelCtx : CtxErr → CtxErr
  | .live => .canceledErr
  | e => e

/-- `Timeout(d)(next)` (src/unnamed/part_002): derive the child context with
deadline `now + d`, run the wrapped handler to completion (cancellation is
cooperative; the middleware never interrupts it), then — in the deferred
function — `cancel()` and set status 504 iff the child's error is then
`DeadlineExceeded`, i.e. iff the deadline fired before the handler returned
(`errAtReturn` is the child's error state at the handler's return). -/
def TimeoutMw (d : Nat) (next : GoCtx → FCtx → FCtx) (now : Nat)
    (errAtReturn : CtxErr) (fctx : FCtx) : FCtx :=
  let child := withTimeout now d
  let f' := next child fctx
  if cancelCtx errAtReturn = .deadlineExceeded then { f' with status := 504 }
  else f'

/-! ### render.JSON body post-processing (src/unnamed/part_000) -/

/-- Lower-case hex digit, as Go's JSON encoder emits. -/
def hexDigit (n : Nat) : Char :=
  if n < 10 then Char.ofNat (48 + n) else Char.ofNat (87 + n)

/-- encoding/json string escaping with the default HTML escaping — the
behaviour `json.Marshal` applies to a Go string value (external stdlib,
modelled from its documented output): quote and backslash escape with a
backslash; newline, carriage return and tab use their short escapes; the
HTML-sensitive characters `<`, `>`, `&` are emitted in their `\u003c`,
`\u003e`, `\u0026` forms; other control bytes below 0x20 as `\u00XX`. -/
def escChar (c : Char) : List Char :=
  if c = '"' then ['\\', '"']
  else if c = '\\' then ['\\', '\\']
  else if c = '<' then ['\\', 'u', '0', '0', '3', 'c']
  else if c = '>' then ['\\', 'u', '0', '0', '3', 'e']
  else if c = '&' then ['\\', 'u', '0', '0', '2', '6']
  else if c = '\n' then ['\\', 'n']
  else if c = '\r' then ['\\', 'r']
  else if c = '\t' then ['\\', 't']
  else if c.toNat < 0x20 then
    ['\\', 'u', '0', '0', hexDigit (c.toNat / 16), hexDigit (c.toNat % 16)]
  else [c]

/-- `json.Marshal` of a string value: a quoted, escaped character list. -/
def marshalString (v : List Char) : List Char :=
  '"' :: v.flatMap escChar ++ ['"']

/-- `bytes.Replace(s, p::ps, rep, -1)`: scan left to right; at a match,
emit `rep`, skip the pattern and continue after it (non-overlapping).  The
fuel argument only bounds the recursion; `goReplace` supplies `s.length`,
which suffices because every step consumes at least one character. -/
def replaceFuel (p : Char) (ps rep : List Char) : Nat → List Char → List Char
  | 0, s => s
  | _ + 1, [] => []
  | fuel + 1, c :: cs =>
    if (p :: ps).isPrefixOf (c :: cs) then
      rep ++ replaceFuel p ps rep fuel (cs.drop ps.length)
    else c :: replaceFuel p ps rep fuel cs

/-- `bytes.Replace` with unlimited count for a nonempty pattern. -/
def goReplace (p : Char) (ps rep : List Char) (s : List Char) : List Char :=
  replaceFuel p ps rep s.length s

/-- `render.JSON`'s body for a string value (src/unnamed/part_000 79-95):
marshal, then the three `bytes.Replace` passes rewriting the byte sequences
`\u003c`, `\u003e`, `\u0026` to `<`, `>`, `&`, in that order. -/
def jsonEmitBody (v : List Char) : List Char :=
  goReplace '\\' ['u', '0', '0', '2', '6'] ['&']
    (goReplace '\\' ['u', '0', '0', '3', 'e'] ['>']
      (goReplace '\\' ['u', '0', '0', '3', 'c'] ['<'] (marshalString v)))

/-- `render.JSON(fctx, status, v)` on the response context: sets the JSON
content type and the status and writes the post-processed body. -/
def renderJSON (fctx : FCtx) (status : Nat) (v : List Char) : FCtx :=
  { fctx with
    contentType := "application/json; charset=utf-8"
    status := status
    body := fctx.body ++ String.mk (jsonEmitBody v) }

/-- Value of a hex digit character. -/
def hexVal (c : Char) : Option Nat :=
  if '0' ≤ c ∧ c ≤ '9' then some (c.toNat - 48)
  else if 'a' ≤ c ∧ c ≤ 'f' then some (c.toNat - 87)
  else if 'A' ≤ c ∧ c ≤ 'F' then some (c.toNat - 55)
  else none

/-- A JSON string-literal body decoder (RFC 8259 string grammar): consumes
characters after the opening quote; succeeds exactly when a closing quote
ends the input and every escape is legal.  `\<` and friends are not legal
escapes, raw control characters are not legal either. -/
def decodeStr : List Char → Option (List Char)
  | [] => none
  | c :: cs =>
    if c = '"' then (if cs.isEmpty then some [] else none)
    else if c = '\\' then
      match cs with
      | [] => none
      | e :: cs' =>
        if e = '"' ∨ e = '\\' ∨ e = '/' then (decodeStr cs').map (e :: ·)
        else if e = 'n' then (decodeStr cs').map ('\n' :: ·)
        else if e = 'r' then (decodeStr cs').map ('\r' :: ·)
        else if e = 't' then (decodeStr cs').map ('\t' :: ·)
        else if e = 'b' then (decodeStr cs').map (Char.ofNat 8 :: ·)
        else if e = 'f' then (decodeStr cs').map (Char.ofNat 12 :: ·)
        else if e = 'u' then
          match cs' with
          | a :: b :: c2 :: d :: rest =>
            match hexVal a, hexVal b, hexVal c2, hexVal d with
            | some x, some y, some z, some t =>
              (decodeStr rest).map
                (Char.ofNat (((x * 16 + y) * 16 + z) * 16 + t) :: ·)
            | _, _, _, _ => none
          | _ => none
        else none
    else if c.toNat < 0x20 then none
    else (decodeStr cs).map (c :: ·)

/-- Parse a whole JSON document that should be a single string literal. -/
def parseJSONString (s : List Char) : Option (List Char) :=
  match s with
  | '"' :: rest => decodeStr rest
  | _ => none

/-- Characters whose serialisation cannot collide with the replaced byte
sequences: not a backslash, not a quote, not a control byte. -/
def goodChar (c : Char) : Prop := c ≠ '\\' ∧ c ≠ '"' ∧ 0x20 ≤ c.toNat

/-- Shape of the marshal output after the first un-escape pass (proof
infrastructure, not part of the source model): `<` is plain again, `>` and
`&` are still escaped. -/
def esc1 (c : Char) : List Char :=
  if c = '>' then ['\\', 'u', '0', '0', '3', 'e']
  else if c = '&' then ['\\', 'u', '0', '0', '2', '6']
  else [c]

/-- Shape after the second pass: only `&` is still escaped (proof
infrastructure). -/
def esc2 (c : Char) : List Char :=
  if c = '&' then ['\\', 'u', '0', '0', '2', '6'] else [c]

/-- goodChar is decidable, so concrete witnesses can be checked. -/
instance : DecidablePred goodChar := fun c => by
  unfold goodChar
  infer_instance

/-! ### Helper lemmas about the chain builder -/

theorem assertAll_map_chiMw {H : Type} (fs : List (H → H)) :
    assertAll (fs.map GoArg.chiMw) = .ok () := by
  induction fs with
  | nil => rfl
  | cons f fs ih => simpa [assertAll, assertMiddleware] using ih

theorem wrapChain_map_chiMw {H : Type} (fs : List (H → H)) (cxh : H) :
    wrapChain (fs.map GoArg.chiMw) cxh =
      .ok (List.foldr (fun f h => f h) cxh fs) := by
  induction fs with
  | nil => rfl
  | cons f fs ih =>
    simp only [List.map_cons, wrapChain, ih, mwrap]
    rfl

theorem chain_chiMw_ok {H : Type} (Ms Is : List (H → H)) (hterm : H) :
    chain (Ms.map GoArg.chiMw) (Is.map GoArg.chiMw ++ [GoArg.handler hterm]) =
      .ok (List.foldr (fun f h => f h) hterm (Ms ++ Is)) := by
  have h1 : (Is.map GoArg.chiMw ++ [GoArg.handler (H := H) hterm]).getLast? =
      some (GoArg.handler hterm) := by
    simp [List.getLast?_append]
  have h2 : (Is.map GoArg.chiMw ++ [GoArg.handler (H := H) hterm]).dropLast =
      Is.map GoArg.chiMw := by
    simp
  have ha : assertAll (List.map (GoArg.chiMw (H := H)) Ms ++ List.map GoArg.chiMw Is) =
      .ok () := by
    rw [← List.map_append]; exact assertAll_map_chiMw _
  have hw : wrapChain (List.map (GoArg.chiMw (H := H)) Ms ++ List.map GoArg.chiMw Is) hterm =
      .ok (List.foldr (fun f h => f h) hterm (Ms ++ Is)) := by
    rw [← List.map_append, wrapChain_map_chiMw]
  rw [chain, h1, h2]
  simp [ha, hw, toContextHandler]

theorem assertAll_error_of_mem {H : Type} (bad : GoArg H) (l : List (GoArg H))
    (hmem : bad ∈ l) (hbad : bad.isChiMw = false) :
    ∃ e, assertAll l = .error e := by
  induction l with
  | nil => cases hmem
  | cons mw rest ih =>
    cases hmem with
    | head =>
      cases bad with
      | chiMw f => simp [GoArg.isChiMw] at hbad
      | httpMw n => exact ⟨_, rfl⟩
      | handler h => exact ⟨_, rfl⟩
      | ctxFn h => exact ⟨_, rfl⟩
      | fctxFn h => exact ⟨_, rfl⟩
      | badArg n => exact ⟨_, rfl⟩
    | tail _ hmem' =>
      cases mw with
      | chiMw f =>
        obtain ⟨e, he⟩ := ih hmem'
        exact ⟨e, by simp [assertAll, assertMiddleware, he]⟩
      | httpMw n => exact ⟨_, rfl⟩
      | handler h => exact ⟨_, rfl⟩
      | ctxFn h => exact ⟨_, rfl⟩
      | fctxFn h => exact ⟨_, rfl⟩
      | badArg n => exact ⟨_, rfl⟩

theorem chain_error_of_bad_mw {H : Type} (bad : GoArg H)
    (middlewares handlers : List (GoArg H)) (hmem : bad ∈ middlewares)
    (hbad : bad.isChiMw = false) :
    ∃ e, chain middlewares handlers = .error e := by
  cases handlers with
  | nil => exact ⟨_, rfl⟩
  | cons h0 hs =>
    have hmem' : bad ∈ middlewares ++ (h0 :: hs).dropLast :=
      List.mem_append_left _ hmem
    obtain ⟨e, he⟩ := assertAll_error_of_mem bad _ hmem' hbad
    refine ⟨e, ?_⟩
    rw [chain]
    cases hgl : (h0 :: hs).getLast? with
    | none => simp at hgl
    | some hlast => simp [he]

theorem handle_error_of_bad_mw {H : Type} (bad : GoArg H) (mx : MuxM H)
    (method : Nat) (pattern : String) (handlers : List (GoArg H))
    (hmem : bad ∈ mx.middlewares) (hbad : bad.isChiMw = false) :
    ∃ e, handle mx method pattern handlers = .error e := by
  obtain ⟨e, he⟩ := chain_error_of_bad_mw bad mx.middlewares handlers hmem hbad
  refine ⟨e, ?_⟩
  rw [handle, he]
  rfl

/-- C2: with a middleware stack `M₁..Mₙ` installed via `Use` and a variadic
handlers list of inline middlewares `I₁..Iₖ` followed by a terminal handler
`H`, `chain` treats all but the last argument as middlewares and composes
right-to-left: the stored handler is `M₁ (M₂ (… Mₙ (I₁ (… (Iₖ H)))))`, i.e.
`List.foldr` of application over `Ms ++ Is`, so `M₁`'s wrapper is outermost and
runs first; `Mux.handle` stores exactly that composed handler for the route. -/
theorem c2_chain_composition {H : Type} (Ms Is : List (H → H)) (hterm : H) :
    chain (Ms.map GoArg.chiMw) (Is.map GoArg.chiMw ++ [GoArg.handler hterm]) =
      .ok (List.foldr (fun f h => f h) hterm (Ms ++ Is)) ∧
    handle (MuxM.mk (Ms.map GoArg.chiMw) []) 4 "/x"
        (Is.map GoArg.chiMw ++ [GoArg.handler hterm]) =
      .ok (MuxM.mk (Ms.map GoArg.chiMw)
        [(4, "/x", List.foldr (fun f h => f h) hterm (Ms ++ Is))]) := by
  refine ⟨chain_chiMw_ok Ms Is hterm, ?_⟩
  rw [handle, chain_chiMw_ok Ms Is hterm]
  have b8 : ((4 : Nat) &&& 8) = 0 := by decide
  have b16 : ((4 : Nat) &&& 16) = 0 := by decide
  have b32 : ((4 : Nat) &&& 32) = 0 := by decide
  have b64 : ((4 : Nat) &&& 64) = 0 := by decide
  have b128 : ((4 : Nat) &&& 128) = 0 := by decide
  have b256 : ((4 : Nat) &&& 256) = 0 := by decide
  simp [insertAllBits, insertBits, methodBits, methodMap, insertRoute,
    Except.bind, b8, b16, b32, b64, b128, b256]

/-- C10: `Use` accepts an http-style middleware (`func(http.Handler)
http.Handler`) without panicking and appends it to the stack, but any
subsequent route registration on a Mux whose stack contains such a middleware
fails, because `chain`'s `assertMiddleware` accepts only
`func(Handler) Handler`. -/
theorem c10_http_mw_blocks_registration {H : Type} (mx : MuxM H) (n : Nat) :
    useOne mx (GoArg.httpMw n) =
      .ok { mx with middlewares := mx.middlewares ++ [GoArg.httpMw n] } ∧
    (∀ (mx' : MuxM H) (method : Nat) (pattern : String)
        (handlers : List (GoArg H)),
      GoArg.httpMw n ∈ mx'.middlewares →
      ∃ e, handle mx' method pattern handlers = .error e) := by
  refine ⟨rfl, fun mx' method pattern handlers hmem => ?_⟩
  exact handle_error_of_bad_mw (GoArg.httpMw n) mx' method pattern handlers hmem rfl

theorem c10_http_mw_blocks_registration_witness :
    ∃ e, handle (MuxM.mk [GoArg.httpMw 0] ([] : List (Nat × String × Nat))) 4 "/x"
      [GoArg.handler 0] = .error e :=
  (c10_http_mw_blocks_registration (MuxM.mk [] []) 0).2
    (MuxM.mk [GoArg.httpMw 0] []) 4 "/x" [GoArg.handler 0] (by simp)

/-! ### Lemmas about route insertion -/

theorem lookupRoute_insert_self {H : Type} (rs : List (Nat × String × H))
    (m : Nat) (pat : String) (h : H) :
    lookupRoute (insertRoute rs m pat h) m pat = some h := by
  induction rs with
  | nil => simp [insertRoute, lookupRoute]
  | cons entry rest ih =>
    obtain ⟨m', p', g⟩ := entry
    by_cases hc : m' = m ∧ p' = pat
    · simp [insertRoute, lookupRoute, hc]
    · simp [insertRoute, lookupRoute, hc, ih]

theorem lookupRoute_insert_ne {H : Type} (rs : List (Nat × String × H))
    (m' : Nat) (pat' : String) (h : H) (m : Nat) (pat : String)
    (hne : ¬(m' = m ∧ pat' = pat)) :
    lookupRoute (insertRoute rs m' pat' h) m pat = lookupRoute rs m pat := by
  induction rs with
  | nil => simp [insertRoute, lookupRoute, hne]
  | cons entry rest ih =>
    obtain ⟨m'', p'', g⟩ := entry
    by_cases hc : m'' = m' ∧ p'' = pat'
    · obtain ⟨rfl, rfl⟩ := hc
      simp [insertRoute, lookupRoute, hne]
    · simp only [insertRoute, if_neg hc]
      by_cases hd : m'' = m ∧ p'' = pat
      · simp [lookupRoute, hd]
      · simp [lookupRoute, hd, ih]

theorem lookupRoute_insertBits_preserved {H : Type} (method : Nat)
    (pat : String) (h : H) (bits : List Nat) (rs : List (Nat × String × H))
    (m : Nat) (hself : lookupRoute rs m pat = some h) :
    lookupRoute (insertBits method pat h bits rs) m pat = some h := by
  induction bits generalizing rs with
  | nil => simpa [insertBits]
  | cons b bs ih =>
    rw [insertBits, List.foldl_cons]
    by_cases hc : method &&& b > 0
    · rw [if_pos hc]
      refine ih _ ?_
      by_cases hb : b = m
      · subst hb; exact lookupRoute_insert_self rs b pat h
      · rw [lookupRoute_insert_ne rs b pat h m pat (fun hx => hb hx.1)]
        exact hself
    · rw [if_neg hc]
      exact ih rs hself

theorem lookupRoute_insertBits_mem {H : Type} (method : Nat)
    (pat : String) (h : H) (bits : List Nat) (rs : List (Nat × String × H))
    (m : Nat) (hm : m ∈ bits) (hcond : ∀ b ∈ bits, method &&& b > 0) :
    lookupRoute (insertBits method pat h bits rs) m pat = some h := by
  induction bits generalizing rs with
  | nil => cases hm
  | cons b bs ih =>
    rw [insertBits, List.foldl_cons, if_pos (hcond b (List.mem_cons_self b bs))]
    cases hm with
    | head =>
      exact lookupRoute_insertBits_preserved method pat h bs _ m
        (lookupRoute_insert_self rs m pat h)
    | tail _ hm' =>
      exact ih _ hm' (fun b' hb' => hcond b' (List.mem_cons_of_mem b hb'))

theorem lookupRoute_insertBits_other {H : Type} (method : Nat)
    (pat : String) (h : H) (bits : List Nat) (rs : List (Nat × String × H))
    (m : Nat) (pat' : String) (hne : pat' ≠ pat) :
    lookupRoute (insertBits method pat h bits rs) m pat' =
      lookupRoute rs m pat' := by
  induction bits generalizing rs with
  | nil => simp [insertBits]
  | cons b bs ih =>
    rw [insertBits, List.foldl_cons]
    by_cases hc : method &&& b > 0
    · rw [if_pos hc, ← insertBits, ih,
        lookupRoute_insert_ne rs b pat h m pat' (fun hx => hne hx.2.symm)]
    · rw [if_neg hc]
      exact ih rs

theorem handle_handler_ok {H : Type} (mx : MuxM H) (hmw : mx.middlewares = [])
    (method : Nat) (pattern : String) (rest : List Char)
    (hp : pattern.data = '/' :: rest) (hv : H) :
    handle mx method pattern [GoArg.handler hv] =
      .ok { mx with routes := insertAllBits method pattern hv mx.routes } := by
  have hch : chain mx.middlewares [GoArg.handler hv] = .ok hv := by
    rw [hmw]; rfl
  rw [handle, hch]
  show (match pattern.data with
    | [] => Except.error "runtime error: index out of range"
    | c :: _ =>
      if c = '/' then
        pure { mx with routes := insertAllBits method pattern hv mx.routes }
      else Except.error "pattern must begin with a /") = _
  rw [hp]
  simp only [if_pos rfl]
  rfl

theorem except_bind_ok {α β : Type} (a : α) (f : α → Except String β) :
    (Except.ok a >>= f) = f a := rfl

theorem string_ne_append_of_data_ne (p s : String) (hs : s.data ≠ []) :
    p ≠ p ++ s := by
  intro h
  have hlen := congrArg String.length h
  rw [String.length_append] at hlen
  have : s.length = 0 := by omega
  rw [String.length, List.length_eq_zero] at this
  exact hs this

theorem mount_computes (p : String) (hv : HV) (rest : List Char)
    (hp : p.data = '/' :: rest) (hroot : p ≠ "/") :
    Mount (MuxM.mk [] []) p [GoArg.handler hv] =
      .ok (MuxM.mk []
        (insertAllBits mALL (p ++ "/*") (HV.mountWrap hv)
          (insertAllBits mALL (p ++ "/") HV.goNotFound
            (insertAllBits mALL p (HV.mountWrap hv) [])))) := by
  have hpne : p ≠ "" := by
    intro h; rw [h] at hp; simp at hp
  have hslash : (p ++ "/").data = '/' :: (rest ++ ['/']) := by
    rw [String.data_append, hp]; rfl
  have hstar : (p ++ "/*").data = '/' :: (rest ++ ['/', '*']) := by
    rw [String.data_append, hp]; rfl
  have hch : chain ([] : List (GoArg HV)) [GoArg.handler hv] = .ok hv := rfl
  have h1 := handle_handler_ok (MuxM.mk [] []) rfl mALL p rest hp (HV.mountWrap hv)
  have h2 := handle_handler_ok
    (MuxM.mk [] (insertAllBits mALL p (HV.mountWrap hv) [])) rfl
    mALL (p ++ "/") _ hslash HV.goNotFound
  have h3 := handle_handler_ok
    (MuxM.mk [] (insertAllBits mALL (p ++ "/") HV.goNotFound
      (insertAllBits mALL p (HV.mountWrap hv) []))) rfl
    mALL (p ++ "/*") _ hstar (HV.mountWrap hv)
  simp only [Mount, hch, except_bind_ok, if_neg hroot, if_pos hpne, h1, h2, h3]

/-- C1 counterexample: `Mount("/admin", h)` does NOT attach a wrapper of `h`
at all three patterns: the handler registered at `"/admin/"` is the stdlib
`http.NotFound`, which is not the mount wrapper of any handler, and the
spec-modelled trie lookup of the path `"/admin/"` therefore reaches
`http.NotFound` (the static pattern `"/admin/"` beats the catch-all
`"/admin/*"`), not the mountee. -/
theorem c1_mount_counterexample :
    (Mount (MuxM.mk [] []) "/admin" [GoArg.handler (HV.user 7)]).map
      (fun mx => lookupRoute mx.routes 4 ("/admin" ++ "/")) =
      .ok (some HV.goNotFound) ∧
    (∀ g : HV, HV.goNotFound ≠ HV.mountWrap g) ∧
    (Mount (MuxM.mk [] []) "/admin" [GoArg.handler (HV.user 7)]).map
      (fun mx => findSpec mx.routes 4 "/admin/") = .ok (some HV.goNotFound) := by
  refine ⟨rfl, fun g h => by simp at h, rfl⟩

/-- C1 amended: for every nonempty mount point `p ≠ "/"` beginning with `/`,
`Mount(p, h)` on a Mux with an empty middleware stack registers the sub-router
wrapper of `h` at `p` and at `p ++ "/*"` in all nine method tries, but
registers `http.NotFound` at `p ++ "/"`; consequently (spec-modelled trie) a
request for the mount index `p` and a request for a sub-tree path reach the
mountee, while a request for `p ++ "/"` reaches `http.NotFound`. -/
theorem c1_mount_amended (p : String) (hv : HV) (rest : List Char)
    (hp : p.data = '/' :: rest) (hroot : p ≠ "/") :
    (∃ mx', Mount (MuxM.mk [] []) p [GoArg.handler hv] = .ok mx' ∧
      ∀ m ∈ methodBits,
        lookupRoute mx'.routes m p = some (HV.mountWrap hv) ∧
        lookupRoute mx'.routes m (p ++ "/") = some HV.goNotFound ∧
        lookupRoute mx'.routes m (p ++ "/*") = some (HV.mountWrap hv)) ∧
    (Mount (MuxM.mk [] []) "/admin" [GoArg.handler (HV.user 7)]).map
      (fun mx => (findSpec mx.routes 4 "/admin",
                  findSpec mx.routes 4 "/admin/sub/x",
                  findSpec mx.routes 4 "/admin/")) =
      .ok (some (HV.mountWrap (HV.user 7)), some (HV.mountWrap (HV.user 7)),
           some HV.goNotFound) := by
  refine ⟨?_, rfl⟩
  have hcond : ∀ b ∈ methodBits, mALL &&& b > 0 := by decide
  have hne1 : p ≠ p ++ "/" := string_ne_append_of_data_ne p "/" (by simp)
  have hne2 : p ≠ p ++ "/*" := string_ne_append_of_data_ne p "/*" (by simp)
  have hne3 : p ++ "/" ≠ p ++ "/*" := by
    intro h
    have hd := congrArg String.data h
    rw [String.data_append, String.data_append] at hd
    have h2 := List.append_cancel_left hd
    exact absurd h2 (by decide)
  refine ⟨_, mount_computes p hv rest hp hroot, fun m hm => ?_⟩
  dsimp only
  refine ⟨?_, ?_, ?_⟩
  · rw [insertAllBits, lookupRoute_insertBits_other _ _ _ _ _ _ _ hne2,
      insertAllBits, lookupRoute_insertBits_other _ _ _ _ _ _ _ hne1,
      insertAllBits]
    exact lookupRoute_insertBits_mem mALL p (HV.mountWrap hv) methodBits [] m hm hcond
  · rw [insertAllBits, lookupRoute_insertBits_other _ _ _ _ _ _ _ hne3,
      insertAllBits]
    exact lookupRoute_insertBits_mem mALL (p ++ "/") HV.goNotFound methodBits _ m hm hcond
  · rw [insertAllBits]
    exact lookupRoute_insertBits_mem mALL (p ++ "/*") (HV.mountWrap hv) methodBits _ m hm hcond

theorem c1_mount_amended_witness :
    ∃ mx', Mount (MuxM.mk [] []) "/admin" [GoArg.handler (HV.user 7)] = .ok mx' ∧
      ∀ m ∈ methodBits,
        lookupRoute mx'.routes m "/admin" = some (HV.mountWrap (HV.user 7)) ∧
        lookupRoute mx'.routes m ("/admin" ++ "/") = some HV.goNotFound ∧
        lookupRoute mx'.routes m ("/admin" ++ "/*") = some (HV.mountWrap (HV.user 7)) :=
  (c1_mount_amended "/admin" (HV.user 7) "admin".data rfl (by decide)).1

/-- C5: for a request method outside the nine native ones (failing input:
method "DIE"), `ServeHTTPC` reads the nil trie stored under the zero
`methodTyp` and faults on the nil dereference inside `Find` instead of
responding 405; no route handler is invoked (`run` does not occur in the
result).  The `methodNotAllowedHandler` present in src/mux.go — which would
produce status 405, an `Allow` header listing the nine supported methods and
the body the repository's own test expects — is never called by dispatch. -/
theorem c5_unknown_method_faults (run : HV → FCtx → FCtx) (mx : MuxM HV)
    (path : String) (fctx : FCtx) :
    serveHTTPC run mx "DIE" path fctx =
      .error "runtime error: invalid memory address or nil pointer dereference" ∧
    (methodNotAllowedHandler { }).status = 405 ∧
    (methodNotAllowedHandler { }).headers =
      [("Allow", "CONNECT,DELETE,GET,HEAD,OPTIONS,PATCH,POST,PUT,TRACE")] ∧
    (methodNotAllowedHandler { }).body = "Method Not Allowed" := by
  exact ⟨rfl, rfl, rfl, rfl⟩

/-! ### Throttle lemmas -/

theorem fillTokens_le (limit : Nat) : ∀ n, n ≤ limit → fillTokens limit n = (n, n) := by
  intro n
  induction n with
  | zero => intro _; rfl
  | succ k ih =>
    intro hk
    have hklt : k < limit := Nat.lt_of_succ_le hk
    rw [fillTokens, ih (Nat.le_of_lt hklt), if_pos hklt]

theorem fillTokens_eq (limit b : Nat) :
    fillTokens limit (limit + b) = (limit, limit + b) := by
  induction b with
  | zero => exact fillTokens_le limit limit le_rfl
  | succ k ih =>
    have : limit + (k + 1) = (limit + k) + 1 := rfl
    rw [this, fillTokens, ih, if_neg (by omega)]

theorem countPh_append {α : Type} [DecidableEq α] (ph : α) (l1 l2 : List α) :
    countPh ph (l1 ++ l2) = countPh ph l1 + countPh ph l2 := by
  induction l1 with
  | nil => simp [countPh]
  | cons q l ih => simp [countPh, ih]; omega

theorem SysInv_step (limit b : Nat) {s s' : Sys} (hst : Step s s')
    (hinv : SysInv limit b s) : SysInv limit b s' := by
  obtain ⟨h1, h2⟩ := hinv
  cases hst <;>
    (simp only [SysInv, inFlight, backlogHolders, countPh_append, countPh] at * <;>
     simp_all <;> omega)

theorem SysInv_init (limit b : Nat) : SysInv limit b (initSys limit b) := by
  unfold SysInv initSys inFlight backlogHolders
  rw [fillTokens_eq]
  simp [countPh]

theorem SysInv_reach (limit b : Nat) {s : Sys}
    (hr : Reach (initSys limit b) s) : SysInv limit b s := by
  induction hr with
  | refl => exact SysInv_init limit b
  | step _ hst ih => exact SysInv_step limit b hst ih

/-- C3 counterexample: the claim "if no backlog token is free the request is
answered 503 with the capacity-exceeded reason" fails when the request
context is already cancelled: with no backlog token free and `ctx.Done()`
ready, the outer select takes the `ctx.Done()` case (the `default` case fires
only when no other case is ready) and answers 503 with the canceled reason
instead. -/
theorem c3_throttle_counterexample :
    (ThrottleEnv.mk true false true InnerEvent.timerFires).backlogFree = false ∧
    (throttleServe (ThrottleEnv.mk true false true InnerEvent.timerFires)
        (fun f => f) { }).fctx.body = errContextCanceled ∧
    errContextCanceled ≠ errCapacityExceeded := by
  refine ⟨rfl, rfl, by decide⟩

/-- C3 amended: on entry the throttler selects among `ctx.Done()`, a backlog
token, and `default`: when the context is not cancelled and no backlog token
is free it answers 503 "capacity exceeded" immediately; when the context is
cancelled and no backlog token is free it answers 503 "canceled"; once a
backlog token is acquired it waits (at most the backlog timeout) in the inner
select, answering 503 "timed out" when the timer fires first and 503
"canceled" when the context is cancelled first; the wrapped handler runs
exactly when an active token is acquired, and then the response is the
handler's. -/
theorem c3_throttle_amended (e : ThrottleEnv) (h : FCtx → FCtx) (fctx : FCtx) :
    (e.ctxDoneAtEntry = false → e.backlogFree = false →
      throttleServe e h fctx =
        ⟨fctxError fctx errCapacityExceeded 503, false, []⟩) ∧
    (e.ctxDoneAtEntry = true → e.backlogFree = false →
      throttleServe e h fctx =
        ⟨fctxError fctx errContextCanceled 503, false, []⟩) ∧
    (outerCase e = .backlog →
      (e.inner = .timerFires →
        throttleServe e h fctx =
          ⟨fctxError fctx errTimedOut 503, false,
           [.acqBacklog, .relBacklog]⟩) ∧
      (e.inner = .ctxCanceled →
        throttleServe e h fctx =
          ⟨fctxError fctx errContextCanceled 503, false,
           [.acqBacklog, .relBacklog]⟩) ∧
      (e.inner = .tokenAcquired →
        throttleServe e h fctx =
          ⟨h fctx, true,
           [.acqBacklog, .acqActive, .runHandler, .relActive, .relBacklog]⟩)) ∧
    ((throttleServe e h fctx).handlerRan = true →
      outerCase e = .backlog ∧ e.inner = .tokenAcquired ∧
      (throttleServe e h fctx).fctx = h fctx) := by
  obtain ⟨cd, bf, pk, inn⟩ := e
  cases cd <;> cases bf <;> cases pk <;> cases inn <;>
    simp [throttleServe, outerCase]

theorem c3_throttle_amended_witness :
    throttleServe (ThrottleEnv.mk false false true InnerEvent.timerFires)
        (fun f => f) { } =
      ⟨fctxError { } errCapacityExceeded 503, false, []⟩ :=
  (c3_throttle_amended (ThrottleEnv.mk false false true InnerEvent.timerFires)
    (fun f => f) { }).1 rfl rfl

/-- C4: the filling loop creates exactly `limit` active tokens and
`limit + backlogLimit` backlog tokens; in every state reachable by
interleaved requests the free tokens plus holders equal those capacities
(token conservation) and hence at most `limit` requests are inside the
wrapped handler; and each single request's event trace is well bracketed:
the handler runs only after the active token is acquired, and every exit
path releases the acquired tokens in reverse order of acquisition (active
before backlog, from the LIFO order of the deferred sends). -/
theorem c4_throttle_invariant (limit b : Nat) (s : Sys)
    (hr : Reach (initSys limit b) s) :
    fillTokens limit (limit + b) = (limit, limit + b) ∧
    s.freeTokens + inFlight s = limit ∧
    s.freeBacklog + backlogHolders s = limit + b ∧
    inFlight s ≤ limit ∧
    (∀ (e : ThrottleEnv) (h : FCtx → FCtx) (f : FCtx),
      (throttleServe e h f).events ∈
        ([[], [.acqBacklog, .relBacklog],
          [.acqBacklog, .acqActive, .runHandler, .relActive, .relBacklog]] :
          List (List TokEvent)) ∧
      ((throttleServe e h f).handlerRan = true →

        (throttleServe e h f).events =
          [.acqBacklog, .acqActive, .runHandler, .relActive, .relBacklog])) := by
  obtain ⟨h1, h2⟩ := SysInv_reach limit b hr
  refine ⟨fillTokens_eq limit b, h1, h2, by omega, ?_⟩
  intro e h f
  obtain ⟨cd, bf, pk, inn⟩ := e
  cases cd <;> cases bf <;> cases pk <;> cases inn <;>
    simp [throttleServe, outerCase]

theorem c4_throttle_invariant_witness :
    fillTokens 1 (1 + 0) = (1, 1 + 0) ∧
    (initSys 1 0).freeTokens + inFlight (initSys 1 0) = 1 ∧
    (initSys 1 0).freeBacklog + backlogHolders (initSys 1 0) = 1 + 0 ∧
    inFlight (initSys 1 0) ≤ 1 ∧
    (∀ (e : ThrottleEnv) (h : FCtx → FCtx) (f : FCtx),
      (throttleServe e h f).events ∈
        ([[], [.acqBacklog, .relBacklog],
          [.acqBacklog, .acqActive, .runHandler, .relActive, .relBacklog]] :
          List (List TokEvent)) ∧
      ((throttleServe e h f).handlerRan = true →
        (throttleServe e h f).events =
          [.acqBacklog, .acqActive, .runHandler, .relActive, .relBacklog])) :=
  c4_throttle_invariant 1 0 (initSys 1 0) Reach.refl

/-- C9: the factory returned by `ThrottleBacklog` closes over one shared
mutable `throttler` and overwrites its handler field on each application:
after applying it to `h1` and then to `h2` the shared cell holds `h2`, every
wrapper (they are all the same pointer) dispatches to the cell's current
handler, and concretely a request through the wrapper produced for the first
route runs `h2`'s body, never `h1`'s. -/
theorem c9_throttle_shared_state (t0 : ThrottlerCell) (h1 h2 : FCtx → FCtx) :
    (factoryApply (factoryApply t0 h1) h2).h = some h2 ∧
    (∀ (e : ThrottleEnv) (fctx : FCtx),
      throttlerDispatch (factoryApply (factoryApply t0 h1) h2) e fctx =
        some (throttleServe e h2 fctx)) ∧
    ((throttlerDispatch
        (factoryApply
          (factoryApply (ThrottlerCell.mk none)
            (fun f => { f with body := "h1" }))
          (fun f => { f with body := "h2" }))
        (ThrottleEnv.mk false true false InnerEvent.tokenAcquired) { }).map
      (fun r => r.fctx.body) = some "h2" ∧
     ("h2" : String) ≠ "h1") := by
  exact ⟨rfl, fun e fctx => rfl, rfl, by decide⟩

/-- C6: the Recoverer-wrapped handler never propagates a panic (it always
returns); on a normal return of the wrapped handler the response is left
unchanged; on a panic the stack trace is appended to the diagnostics sink and
the response is set to status 500 with body "Internal Server Error". -/
theorem c6_recoverer (next : GHandler) (w : World) :
    (∃ w', Recoverer next w = .ok w') ∧
    (∀ w', next w = .ok w' → Recoverer next w = .ok w') ∧
    (∀ pv w', next w = .error (pv, w') →
      Recoverer next w =
        .ok ⟨fctxError w'.fctx "Internal Server Error" 500,
             w'.diag ++ [stackTraceLine pv]⟩ ∧
      (fctxError w'.fctx "Internal Server Error" 500).status = 500 ∧
      (fctxError w'.fctx "Internal Server Error" 500).body =
        "Internal Server Error") := by
  refine ⟨?_, ?_, ?_⟩
  · cases hn : next w with
    | ok w' => exact ⟨w', by simp [Recoverer, hn]⟩
    | error pw =>
      obtain ⟨pv, w'⟩ := pw
      exact ⟨⟨fctxError w'.fctx "Internal Server Error" 500,
              w'.diag ++ [stackTraceLine pv]⟩, by simp [Recoverer, hn]⟩
  · intro w' hn
    simp [Recoverer, hn]
  · intro pv w' hn
    exact ⟨by simp [Recoverer, hn], rfl, rfl⟩

theorem c6_recoverer_witness :
    Recoverer (fun w => .error ("boom", w)) (World.mk { } []) =
      .ok ⟨fctxError { } "Internal Server Error" 500,
           [stackTraceLine "boom"]⟩ ∧
    (fctxError ({ } : FCtx) "Internal Server Error" 500).status = 500 :=
  ⟨((c6_recoverer (fun w => .error ("boom", w)) (World.mk { } [])).2.2
      "boom" (World.mk { } []) rfl).1,
   ((c6_recoverer (fun w => .error ("boom", w)) (World.mk { } [])).2.2
      "boom" (World.mk { } []) rfl).2.1⟩

/-- C7: `Timeout(d)` passes the wrapped handler a child context whose
deadline is `now + d`; the handler always runs to completion (body and
headers of the result are exactly those the handler produced — the
middleware never interrupts it); after the return the status is set to 504
exactly when the child context's error is DeadlineExceeded, i.e. when the
deadline fired before the return, and is left unchanged otherwise. -/
theorem c7_timeout (d : Nat) (next : GoCtx → FCtx → FCtx) (now : Nat)
    (errAtReturn : CtxErr) (fctx : FCtx) :
    (withTimeout now d).deadline = some (now + d) ∧
    (TimeoutMw d next now errAtReturn fctx).body =
      (next (withTimeout now d) fctx).body ∧
    (TimeoutMw d next now errAtReturn fctx).headers =
      (next (withTimeout now d) fctx).headers ∧
    (errAtReturn = .deadlineExceeded →
      (TimeoutMw d next now errAtReturn fctx).status = 504) ∧
    (errAtReturn ≠ .deadlineExceeded →
      TimeoutMw d next now errAtReturn fctx = next (withTimeout now d) fctx) := by
  cases errAtReturn <;> simp [TimeoutMw, withTimeout, cancelCtx]

theorem c7_timeout_witness :
    (TimeoutMw 5 (fun _ f => f) 0 CtxErr.deadlineExceeded { }).status = 504 ∧
    TimeoutMw 5 (fun _ f => f) 0 CtxErr.live { } =
      (fun (_ : GoCtx) (f : FCtx) => f) (withTimeout 0 5) { } :=
  ⟨(c7_timeout 5 (fun _ f => f) 0 CtxErr.deadlineExceeded { }).2.2.2.1 rfl,
   (c7_timeout 5 (fun _ f => f) 0 CtxErr.live { }).2.2.2.2 (by simp)⟩

theorem replaceFuel_congr (p : Char) (ps rep : List Char) :
    ∀ (n m : Nat) (s : List Char), s.length ≤ n → s.length ≤ m →
      replaceFuel p ps rep n s = replaceFuel p ps rep m s := by
  intro n
  induction n with
  | zero =>
    intro m s hn hm
    have : s = [] := List.length_eq_zero.mp (Nat.le_zero.mp hn)
    subst this
    cases m <;> rfl
  | succ k ih =>
    intro m s hn hm
    cases s with
    | nil => cases m <;> rfl
    | cons c cs =>
      cases m with
      | zero => simp at hm
      | succ j =>
        have hck : cs.length ≤ k := by simp at hn; omega
        have hcj : cs.length ≤ j := by simp at hm; omega
        rw [replaceFuel, replaceFuel]
        by_cases hpre : ((p :: ps).isPrefixOf (c :: cs)) = true
        · rw [if_pos hpre, if_pos hpre]
          have hd : (cs.drop ps.length).length ≤ k :=
            le_trans (by simp) hck
          have hd2 : (cs.drop ps.length).length ≤ j :=
            le_trans (by simp) hcj
          rw [ih j _ hd hd2]
        · rw [if_neg hpre, if_neg hpre, ih j cs hck hcj]

theorem goReplace_cons_of_prefix_false (p : Char) (ps rep : List Char)
    (c : Char) (cs : List Char) (h : ((p :: ps).isPrefixOf (c :: cs)) = false) :
    goReplace p ps rep (c :: cs) = c :: goReplace p ps rep cs := by
  show replaceFuel p ps rep (c :: cs).length (c :: cs) = _
  rw [List.length_cons, replaceFuel, if_neg (by simp [h])]
  rfl

theorem goReplace_cons_ne (p : Char) (ps rep : List Char) (c : Char)
    (cs : List Char) (h : c ≠ p) :
    goReplace p ps rep (c :: cs) = c :: goReplace p ps rep cs := by
  refine goReplace_cons_of_prefix_false p ps rep c cs ?_
  simp [List.isPrefixOf]
  intro hpc
  exact absurd hpc.symm h

theorem goReplace_pattern_head (p : Char) (ps rep rest : List Char) :
    goReplace p ps rep ((p :: ps) ++ rest) = rep ++ goReplace p ps rep rest := by
  show replaceFuel p ps rep ((p :: ps) ++ rest).length _ = _
  rw [List.cons_append, List.length_cons, replaceFuel, if_pos ?hp]
  case hp =>
    have hpre : (p :: ps) <+: (p :: ps) ++ rest := List.prefix_append _ _
    rw [List.cons_append] at hpre
    exact List.isPrefixOf_iff_prefix.mpr hpre
  rw [List.drop_left]
  have : rest.length ≤ (ps ++ rest).length := by simp
  rw [replaceFuel_congr p ps rep _ rest.length rest this le_rfl]
  rfl

theorem skip1_gt (rest : List Char) :
    goReplace '\\' ['u','0','0','3','c'] ['<'] (['\\','u','0','0','3','e'] ++ rest) =
      ['\\','u','0','0','3','e'] ++ goReplace '\\' ['u','0','0','3','c'] ['<'] rest := by
  rw [show (['\\','u','0','0','3','e'] : List Char) ++ rest =
      '\\' :: 'u' :: '0' :: '0' :: '3' :: 'e' :: rest from rfl]
  rw [goReplace_cons_of_prefix_false _ _ _ _ _ (by simp [List.isPrefixOf])]
  rw [goReplace_cons_ne _ _ _ _ _ (by decide),
      goReplace_cons_ne _ _ _ _ _ (by decide),
      goReplace_cons_ne _ _ _ _ _ (by decide),
      goReplace_cons_ne _ _ _ _ _ (by decide),
      goReplace_cons_ne _ _ _ _ _ (by decide)]
  rfl

theorem skip1_amp (rest : List Char) :
    goReplace '\\' ['u','0','0','3','c'] ['<'] (['\\','u','0','0','2','6'] ++ rest) =
      ['\\','u','0','0','2','6'] ++ goReplace '\\' ['u','0','0','3','c'] ['<'] rest := by
  rw [show (['\\','u','0','0','2','6'] : List Char) ++ rest =
      '\\' :: 'u' :: '0' :: '0' :: '2' :: '6' :: rest from rfl]
  rw [goReplace_cons_of_prefix_false _ _ _ _ _ (by simp [List.isPrefixOf])]
  rw [goReplace_cons_ne _ _ _ _ _ (by decide),
      goReplace_cons_ne _ _ _ _ _ (by decide),
      goReplace_cons_ne _ _ _ _ _ (by decide),
      goReplace_cons_ne _ _ _ _ _ (by decide),
      goReplace_cons_ne _ _ _ _ _ (by decide)]
  rfl

theorem skip2_amp (rest : List Char) :
    goReplace '\\' ['u','0','0','3','e'] ['>'] (['\\','u','0','0','2','6'] ++ rest) =
      ['\\','u','0','0','2','6'] ++ goReplace '\\' ['u','0','0','3','e'] ['>'] rest := by
  rw [show (['\\','u','0','0','2','6'] : List Char) ++ rest =
      '\\' :: 'u' :: '0' :: '0' :: '2' :: '6' :: rest from rfl]
  rw [goReplace_cons_of_prefix_false _ _ _ _ _ (by simp [List.isPrefixOf])]
  rw [goReplace_cons_ne _ _ _ _ _ (by decide),
      goReplace_cons_ne _ _ _ _ _ (by decide),
      goReplace_cons_ne _ _ _ _ _ (by decide),
      goReplace_cons_ne _ _ _ _ _ (by decide),
      goReplace_cons_ne _ _ _ _ _ (by decide)]
  rfl

theorem escChar_plain (c : Char) (h : goodChar c) (h1 : c ≠ '<')
    (h2 : c ≠ '>') (h3 : c ≠ '&') : escChar c = [c] := by
  obtain ⟨hb, hq, hn⟩ := h
  unfold escChar
  rw [if_neg hq, if_neg hb, if_neg h1, if_neg h2, if_neg h3,
    if_neg ?n1, if_neg ?n2, if_neg ?n3, if_neg ?n4]
  case n1 => intro he; subst he; exact absurd hn (by decide)
  case n2 => intro he; subst he; exact absurd hn (by decide)
  case n3 => intro he; subst he; exact absurd hn (by decide)
  case n4 => omega

theorem esc1_plain (c : Char) (h2 : c ≠ '>') (h3 : c ≠ '&') : esc1 c = [c] := by
  unfold esc1
  rw [if_neg h2, if_neg h3]

theorem esc2_plain (c : Char) (h3 : c ≠ '&') : esc2 c = [c] := by
  unfold esc2
  rw [if_neg h3]

theorem pass1 (v : List Char) (hv : ∀ c ∈ v, goodChar c) :
    goReplace '\\' ['u','0','0','3','c'] ['<'] (v.flatMap escChar ++ ['"']) =
      v.flatMap esc1 ++ ['"'] := by
  induction v with
  | nil =>
    simp only [List.flatMap_nil, List.nil_append]
    rw [goReplace_cons_ne _ _ _ _ _ (by decide)]
    rfl
  | cons c v' ih =>
    have hc := hv c (List.mem_cons_self c v')
    have ih' := ih (fun d hd => hv d (List.mem_cons_of_mem c hd))
    rw [List.flatMap_cons, List.flatMap_cons, List.append_assoc,
      List.append_assoc]
    by_cases h1 : c = '<'
    · subst h1
      rw [show escChar '<' = ['\\','u','0','0','3','c'] from rfl,
        goReplace_pattern_head, ih']
      rfl
    · by_cases h2 : c = '>'
      · subst h2
        rw [show escChar '>' = ['\\','u','0','0','3','e'] from rfl,
          skip1_gt, ih']
        rfl
      · by_cases h3 : c = '&'
        · subst h3
          rw [show escChar '&' = ['\\','u','0','0','2','6'] from rfl,
            skip1_amp, ih']
          rfl
        · rw [escChar_plain c hc h1 h2 h3, esc1_plain c h2 h3,
            List.singleton_append, List.singleton_append,
            goReplace_cons_ne _ _ _ _ _ hc.1, ih']

theorem pass2 (v : List Char) (hv : ∀ c ∈ v, goodChar c) :
    goReplace '\\' ['u','0','0','3','e'] ['>'] (v.flatMap esc1 ++ ['"']) =
      v.flatMap esc2 ++ ['"'] := by
  induction v with
  | nil =>
    simp only [List.flatMap_nil, List.nil_append]
    rw [goReplace_cons_ne _ _ _ _ _ (by decide)]
    rfl
  | cons c v' ih =>
    have hc := hv c (List.mem_cons_self c v')
    have ih' := ih (fun d hd => hv d (List.mem_cons_of_mem c hd))
    rw [List.flatMap_cons, List.flatMap_cons, List.append_assoc,
      List.append_assoc]
    by_cases h2 : c = '>'
    · subst h2
      rw [show esc1 '>' = ['\\','u','0','0','3','e'] from rfl,
        goReplace_pattern_head, ih']
      rfl
    · by_cases h3 : c = '&'
      · subst h3
        rw [show esc1 '&' = ['\\','u','0','0','2','6'] from rfl,
          skip2_amp, ih']
        rfl
      · rw [esc1_plain c h2 h3, esc2_plain c h3,
          List.singleton_append, List.singleton_append,
          goReplace_cons_ne _ _ _ _ _ hc.1, ih']

theorem pass3 (v : List Char) (hv : ∀ c ∈ v, goodChar c) :
    goReplace '\\' ['u','0','0','2','6'] ['&'] (v.flatMap esc2 ++ ['"']) =
      v ++ ['"'] := by
  induction v with
  | nil =>
    simp only [List.flatMap_nil, List.nil_append]
    rw [goReplace_cons_ne _ _ _ _ _ (by decide)]
    rfl
  | cons c v' ih =>
    have hc := hv c (List.mem_cons_self c v')
    have ih' := ih (fun d hd => hv d (List.mem_cons_of_mem c hd))
    rw [List.flatMap_cons, List.append_assoc, List.cons_append]
    by_cases h3 : c = '&'
    · subst h3
      rw [show esc2 '&' = ['\\','u','0','0','2','6'] from rfl,
        goReplace_pattern_head, ih']
      rfl
    · rw [esc2_plain c h3, List.singleton_append,
        goReplace_cons_ne _ _ _ _ _ hc.1, ih']

theorem jsonEmitBody_good (v : List Char) (hv : ∀ c ∈ v, goodChar c) :
    jsonEmitBody v = '"' :: (v ++ ['"']) := by
  unfold jsonEmitBody marshalString
  rw [List.cons_append]
  rw [goReplace_cons_ne _ _ _ _ _ (by decide), pass1 v hv,
    goReplace_cons_ne _ _ _ _ _ (by decide), pass2 v hv,
    goReplace_cons_ne _ _ _ _ _ (by decide), pass3 v hv]

theorem decodeStr_append_quote (v : List Char) (hv : ∀ c ∈ v, goodChar c) :
    decodeStr (v ++ ['"']) = some v := by
  induction v with
  | nil => rfl
  | cons c v' ih =>
    obtain ⟨hb, hq, hn⟩ := hv c (List.mem_cons_self c v')
    have ih' := ih (fun d hd => hv d (List.mem_cons_of_mem c hd))
    have hlt : ¬ c.toNat < 0x20 := by omega
    rw [List.cons_append, decodeStr.eq_def]
    simp [hq, hb, hlt, ih']


/-- C8 counterexample: the textual un-escape is not safe for every value.
For the string consisting of the six literal characters backslash, u, 0, 0,
3, c, `json.Marshal` yields the eight-byte body quote backslash backslash
u003c quote; the `bytes.Replace` pass matches the second backslash followed
by u003c and rewrites the body to the four bytes quote backslash less-than
quote, which is not valid JSON (backslash-less-than is not a legal escape):
the emitted body does not parse, so the round-trip fails. -/
theorem c8_json_counterexample :
    jsonEmitBody ['\\', 'u', '0', '0', '3', 'c'] = ['"', '\\', '<', '"'] ∧
    parseJSONString (jsonEmitBody ['\\', 'u', '0', '0', '3', 'c']) = none ∧
    parseJSONString (jsonEmitBody ['\\', 'u', '0', '0', '3', 'c']) ≠
      some ['\\', 'u', '0', '0', '3', 'c'] := by
  refine ⟨rfl, rfl, by decide⟩

/-- C8 amended: for every string value none of whose characters is a
backslash, a quote or a control byte, the three un-escape passes of
`render.JSON` exactly undo the serialiser's HTML escapes, the emitted body
is the plain quoted string, it parses as JSON and yields the original value
(round-trip); for values whose serialisation contains the replaced byte
sequences other than as serialiser-produced escapes (a literal backslash
followed by u003c), the replacement corrupts the body. -/
theorem c8_json_amended (v : List Char) (hv : ∀ c ∈ v, goodChar c) :
    jsonEmitBody v = '"' :: (v ++ ['"']) ∧
    parseJSONString (jsonEmitBody v) = some v := by
  have hb := jsonEmitBody_good v hv
  refine ⟨hb, ?_⟩
  rw [hb]
  show decodeStr (v ++ ['"']) = some v
  exact decodeStr_append_quote v hv

theorem c8_json_amended_witness :
    jsonEmitBody "a<b&c>d".data = '"' :: ("a<b&c>d".data ++ ['"']) ∧
    parseJSONString (jsonEmitBody "a<b&c>d".data) = some "a<b&c>d".data :=
  c8_json_amended "a<b&c>d".data (by decide)
